import Mathlib

/-!
Shallow embedding of the ProteinSeqRN k-mer composition engine and batch CSV
pipeline, translated from `src/proteinFeatures.ts` and `src/App.tsx`.

Modelling conventions:
* A JavaScript string is a `List Char`; a one-character JS string (an entry of
  the `AMINO_ACIDS` array, or `seq[i]`) is a `Char`.
* A JavaScript numeric array is a `List Nat` (counts) or `List ℚ`
  (compositions); the statement `arr[idx]++` is `bumpAt arr idx`.
* JavaScript floating-point division is modelled as exact division in `ℚ`.
* The `AA_INDEX` object built by `AMINO_ACIDS.reduce((m, aa, i) => ...)`
  maps a character to its first index in the alphabet and is `undefined`
  (`Option.none`) for characters outside it.
* The `for` loops of `computeFeaturesForSeq` visit, in order, every character
  (order 1), every adjacent pair (order 2, start positions `0 ≤ i`, `i+1 < n`)
  and every adjacent triple (order 3); `diPairs`/`triTriples` enumerate those
  windows and the loop body is the fold step `countStep`.
-/

set_option maxRecDepth 100000

namespace ProteinSeqRN

variable {α β : Type _}

/-- Source: `export const AMINO_ACIDS: string[] = "ACDEFGHIKLMNPQRSTVWY".split("")`. -/
def AMINO_ACIDS : List Char := "ACDEFGHIKLMNPQRSTVWY".toList

/-- First index of `c` in a list, `none` if absent: the behaviour of the
`AA_INDEX` record built by `reduce` (later bindings of a duplicate key would
win, but the alphabet has no duplicates, so first index is exact). -/
def lookupIdx (c : Char) : List Char → Option Nat
  | [] => none
  | a :: rest => if a = c then some 0 else (lookupIdx c rest).map (fun i => i + 1)

/-- Source: `const AA_INDEX: Record<string, number>`: alphabet position lookup,
`undefined` (= `none`) off the alphabet. -/
def AA_INDEX (c : Char) : Option Nat := lookupIdx c AMINO_ACIDS

/-- Source: `DIPEPTIDES`: nested loops `i`, `j` over the alphabet pushing
`AMINO_ACIDS[i] + AMINO_ACIDS[j]` — outer symbol varies slowest. -/
def DIPEPTIDES : List (List Char) :=
  AMINO_ACIDS.flatMap fun a => AMINO_ACIDS.map fun b => [a, b]

/-- Source: `TRIPEPTIDES`: nested loops `i`, `j`, `k` over the alphabet pushing
`AMINO_ACIDS[i] + AMINO_ACIDS[j] + AMINO_ACIDS[k]`. -/
def TRIPEPTIDES : List (List Char) :=
  AMINO_ACIDS.flatMap fun a =>
    AMINO_ACIDS.flatMap fun b => AMINO_ACIDS.map fun c => [a, b, c]

/-- Source: `arr[idx]++` on a JS array whose `idx` is always in bounds at call sites
(out-of-bounds is a no-op here; all indices used are proved in range). -/
def bumpAt : List Nat → Nat → List Nat
  | [], _ => []
  | x :: rest, 0 => (x + 1) :: rest
  | x :: rest, i + 1 => x :: bumpAt rest i

/-- Loop body shared by the three counting passes: look the window up with
`g`; if every character resolved (`some idx`), increment slot `idx`,
otherwise skip the window entirely. -/
def countStep (g : α → Option Nat) (v : List Nat) (x : α) : List Nat :=
  match g x with
  | some i => bumpAt v i
  | none => v

/-- Source: `aaCounts`: `new Array(20).fill(0)` then one pass over the characters. -/
def aaCounts (s : List Char) : List Nat :=
  s.foldl (countStep AA_INDEX) (List.replicate 20 0)

/-- The order-2 windows: pairs `(seq[i], seq[i+1])` for `i + 1 < n`, in order. -/
def diPairs : List Char → List (Char × Char)
  | a :: b :: rest => (a, b) :: diPairs (b :: rest)
  | _ => []

/-- Index of a pair window: `ia * 20 + ib` when both characters are in the
alphabet (`ia !== undefined && ib !== undefined`), else skip. -/
def diIdx (p : Char × Char) : Option Nat :=
  match AA_INDEX p.1, AA_INDEX p.2 with
  | some ia, some ib => some (ia * 20 + ib)
  | _, _ => none

/-- Source: `diCounts`: `new Array(400).fill(0)` then one pass over pair windows. -/
def diCounts (s : List Char) : List Nat :=
  (diPairs s).foldl (countStep diIdx) (List.replicate 400 0)

/-- The order-3 windows: triples `(seq[i], seq[i+1], seq[i+2])`, in order. -/
def triTriples : List Char → List (Char × Char × Char)
  | a :: b :: c :: rest => (a, b, c) :: triTriples (b :: c :: rest)
  | _ => []

/-- Index of a triple window: `ia * 400 + ib * 20 + ic` when all three
characters are in the alphabet, else skip. -/
def triIdx (t : Char × Char × Char) : Option Nat :=
  match AA_INDEX t.1, AA_INDEX t.2.1, AA_INDEX t.2.2 with
  | some ia, some ib, some ic => some (ia * 400 + ib * 20 + ic)
  | _, _, _ => none

/-- Source: `triCounts`: `new Array(8000).fill(0)` then one pass over triple windows. -/
def triCounts (s : List Char) : List Nat :=
  (triTriples s).foldl (countStep triIdx) (List.replicate 8000 0)

/-- Source: `counts.map((c) => (total > 0 ? c / total : 0))` — the division-by-zero
guard of every composition vector. -/
def compOf (counts : List Nat) (total : Nat) : List ℚ :=
  counts.map fun (c : Nat) => if 0 < total then (c : ℚ) / total else 0

/-- Source: `max(0, n - k + 1)`: the raw window denominator. In `Nat`, `n + 1 - k`
truncates at zero exactly like the JS `Math.max(0, n - k + 1)`. -/
def totalWindows (k n : Nat) : Nat := n + 1 - k

/-- The record returned by `computeFeaturesForSeq`. -/
structure CompositionResult where
  aaComp : List ℚ
  diComp : List ℚ
  triComp : List ℚ
  length : Nat
  deriving Repr, DecidableEq

/-- Source: `computeFeaturesForSeq(seq)`: `aaComp = aaCounts / n` (guarded),
`diComp = diCounts / Math.max(0, n - 1)`, `triComp = triCounts /
Math.max(0, n - 2)` (`Nat` subtraction is already the `max` with 0). -/
def computeFeaturesForSeq (s : List Char) : CompositionResult where
  aaComp := compOf (aaCounts s) s.length
  diComp := compOf (diCounts s) (s.length - 1)
  triComp := compOf (triCounts s) (s.length - 2)
  length := s.length

/-! Helper lemmas about the counting fold. -/

lemma bumpAt_length (v : List Nat) (i : Nat) : (bumpAt v i).length = v.length := by
  induction v generalizing i with
  | nil => rfl
  | cons x rest ih =>
    cases i with
    | zero => rfl
    | succ i => simp [bumpAt, ih]

lemma bumpAt_getD_self (v : List Nat) (i : Nat) (h : i < v.length) :
    (bumpAt v i).getD i 0 = v.getD i 0 + 1 := by
  induction v generalizing i with
  | nil => simp at h
  | cons x rest ih =>
    cases i with
    | zero => simp [bumpAt]
    | succ i =>
      simp only [bumpAt, List.getD_cons_succ]
      exact ih i (by simpa using h)

lemma bumpAt_getD_ne (v : List Nat) (i j : Nat) (h : j ≠ i) :
    (bumpAt v i).getD j 0 = v.getD j 0 := by
  induction v generalizing i j with
  | nil => rfl
  | cons x rest ih =>
    cases i with
    | zero =>
      cases j with
      | zero => exact absurd rfl h
      | succ j => simp [bumpAt]
    | succ i =>
      cases j with
      | zero => simp [bumpAt]
      | succ j =>
        simp only [bumpAt, List.getD_cons_succ]
        exact ih i j (by omega)

lemma bumpAt_sum (v : List Nat) (i : Nat) (h : i < v.length) :
    (bumpAt v i).sum = v.sum + 1 := by
  induction v generalizing i with
  | nil => simp at h
  | cons x rest ih =>
    cases i with
    | zero => simp [bumpAt, List.sum_cons]; omega
    | succ i =>
      simp [bumpAt, List.sum_cons, ih i (by simpa using h)]
      omega

lemma countStep_length (g : α → Option Nat) (v : List Nat) (x : α) :
    (countStep g v x).length = v.length := by
  cases hx : g x <;> simp [countStep, hx, bumpAt_length]

lemma foldl_countStep_length (g : α → Option Nat) :
    ∀ (l : List α) (v : List Nat), (l.foldl (countStep g) v).length = v.length
  | [], _ => rfl
  | x :: l, v => by
    rw [List.foldl_cons, foldl_countStep_length g l]
    exact countStep_length g v x

/-- Each slot of the final count vector is the number of windows whose index
resolves to exactly that slot. -/
lemma foldl_countStep_getD (g : α → Option Nat) (idx : Nat) :
    ∀ (l : List α) (v : List Nat), idx < v.length →
      (l.foldl (countStep g) v).getD idx 0
        = v.getD idx 0 + (l.filter fun x => g x = some idx).length
  | [], v, _ => by simp
  | x :: l, v, h => by
    rw [List.foldl_cons,
      foldl_countStep_getD g idx l _ ((countStep_length g v x) ▸ h)]
    cases hx : g x with
    | none =>
      have hcs : countStep g v x = v := by simp [countStep, hx]
      rw [hcs, List.filter_cons]
      simp [hx]
    | some i =>
      have hcs : countStep g v x = bumpAt v i := by simp [countStep, hx]
      by_cases hi : i = idx
      · subst hi
        rw [hcs, bumpAt_getD_self v i h, List.filter_cons]
        simp [hx]
        omega
      · rw [hcs, bumpAt_getD_ne v i idx (fun hh => hi hh.symm), List.filter_cons]
        simp [hx, hi]

/-- The total of the final count vector is the number of windows that resolve
to some index (every invalid window is skipped, contributing nothing). -/
lemma foldl_countStep_sum (g : α → Option Nat) :
    ∀ (l : List α) (v : List Nat),
      (∀ x ∈ l, ∀ j, g x = some j → j < v.length) →
      (l.foldl (countStep g) v).sum
        = v.sum + (l.filter fun x => (g x).isSome).length
  | [], _, _ => by simp
  | x :: l, v, h => by
    rw [List.foldl_cons,
      foldl_countStep_sum g l _
        (fun y hy j hj => (countStep_length g v x) ▸ h y (List.mem_cons_of_mem x hy) j hj)]
    cases hx : g x with
    | none =>
      have hcs : countStep g v x = v := by simp [countStep, hx]
      rw [hcs, List.filter_cons]
      simp [hx]
    | some i =>
      have hi : i < v.length := h x (List.mem_cons_self x l) i hx
      have hcs : countStep g v x = bumpAt v i := by simp [countStep, hx]
      rw [hcs, bumpAt_sum v i hi, List.filter_cons]
      simp [hx]
      omega

/-! Helper lemmas about the alphabet lookup. -/

lemma lookupIdx_lt_length {c : Char} :
    ∀ {l : List Char} {i : Nat}, lookupIdx c l = some i → i < l.length
  | [], _, h => by simp [lookupIdx] at h
  | a :: rest, i, h => by
    by_cases ha : a = c
    · simp only [lookupIdx, if_pos ha, Option.some.injEq] at h
      simp [← h]
    · simp only [lookupIdx, if_neg ha, Option.map_eq_some'] at h
      obtain ⟨j, hj, rfl⟩ := h
      have := lookupIdx_lt_length hj
      simp
      omega

lemma lookupIdx_getD (d : Char) {c : Char} :
    ∀ {l : List Char} {i : Nat}, lookupIdx c l = some i → l.getD i d = c
  | [], _, h => by simp [lookupIdx] at h
  | a :: rest, i, h => by
    by_cases ha : a = c
    · simp only [lookupIdx, if_pos ha, Option.some.injEq] at h
      simp [← h, ha]
    · simp only [lookupIdx, if_neg ha, Option.map_eq_some'] at h
      obtain ⟨j, hj, rfl⟩ := h
      simpa using lookupIdx_getD d hj

lemma lookupIdx_of_getD (d : Char) {c : Char} :
    ∀ {l : List Char} {i : Nat}, l.Nodup → i < l.length → l.getD i d = c →
      lookupIdx c l = some i
  | [], _, _, hi, _ => by simp at hi
  | a :: rest, i, hnd, hi, hc => by
    rcases List.nodup_cons.mp hnd with ⟨hna, hndr⟩
    cases i with
    | zero =>
      simp only [List.getD_cons_zero] at hc
      simp [lookupIdx, hc]
    | succ i =>
      simp only [List.getD_cons_succ] at hc
      have hi' : i < rest.length := by simpa using hi
      have ha : ¬ (a = c) := by
        intro hac
        apply hna
        have : rest.getD i d ∈ rest := by
          rw [List.getD_eq_getElem?_getD, List.getElem?_eq_getElem hi']
          exact List.getElem_mem hi'
        rw [hc, ← hac] at this
        exact this
      simp [lookupIdx, ha, lookupIdx_of_getD d hndr hi' hc]

lemma lookupIdx_isSome_of_mem {c : Char} :
    ∀ {l : List Char}, c ∈ l → (lookupIdx c l).isSome
  | [], h => by simp at h
  | a :: rest, h => by
    by_cases ha : a = c
    · simp [lookupIdx, ha]
    · have : c ∈ rest := by
        rcases List.mem_cons.mp h with h1 | h1
        · exact absurd h1.symm ha
        · exact h1
      have := lookupIdx_isSome_of_mem this
      rcases Option.isSome_iff_exists.mp this with ⟨j, hj⟩
      simp [lookupIdx, ha, hj]

/-! Facts about the alphabet itself. -/

lemma AMINO_ACIDS_length : AMINO_ACIDS.length = 20 := by decide

lemma AMINO_ACIDS_nodup : AMINO_ACIDS.Nodup := by decide

lemma AA_INDEX_lt {c : Char} {i : Nat} (h : AA_INDEX c = some i) : i < 20 :=
  AMINO_ACIDS_length ▸ lookupIdx_lt_length h

lemma AA_INDEX_getD {c : Char} {i : Nat} (h : AA_INDEX c = some i) :
    AMINO_ACIDS.getD i ' ' = c :=
  lookupIdx_getD ' ' h

lemma AA_INDEX_eq_iff {c : Char} {i : Nat} (hi : i < 20) :
    AA_INDEX c = some i ↔ c = AMINO_ACIDS.getD i ' ' := by
  constructor
  · intro h
    exact (AA_INDEX_getD h).symm
  · intro h
    exact lookupIdx_of_getD ' ' AMINO_ACIDS_nodup (AMINO_ACIDS_length ▸ hi) h.symm

/-! Window enumerations: lengths and membership. -/

lemma diPairs_length : ∀ s : List Char, (diPairs s).length = s.length - 1
  | [] => rfl
  | [_] => rfl
  | a :: b :: rest => by
    have ih := diPairs_length (b :: rest)
    simp only [diPairs, List.length_cons] at *
    omega

lemma triTriples_length : ∀ s : List Char, (triTriples s).length = s.length - 2
  | [] => rfl
  | [_] => rfl
  | [_, _] => rfl
  | a :: b :: c :: rest => by
    have ih := triTriples_length (b :: c :: rest)
    simp only [triTriples, List.length_cons] at *
    omega

lemma diPairs_mem : ∀ {s : List Char} {p : Char × Char},
    p ∈ diPairs s → p.1 ∈ s ∧ p.2 ∈ s
  | [], p, h => by simp [diPairs] at h
  | [_], p, h => by simp [diPairs] at h
  | a :: b :: rest, p, h => by
    rcases List.mem_cons.mp h with rfl | h
    · exact ⟨List.mem_cons_self a _, List.mem_cons_of_mem a (List.mem_cons_self b _)⟩
    · have ih := diPairs_mem h
      exact ⟨List.mem_cons_of_mem a ih.1, List.mem_cons_of_mem a ih.2⟩

lemma triTriples_mem : ∀ {s : List Char} {t : Char × Char × Char},
    t ∈ triTriples s → t.1 ∈ s ∧ t.2.1 ∈ s ∧ t.2.2 ∈ s
  | [], t, h => by simp [triTriples] at h
  | [_], t, h => by simp [triTriples] at h
  | [_, _], t, h => by simp [triTriples] at h
  | a :: b :: c :: rest, t, h => by
    rcases List.mem_cons.mp h with rfl | h
    · refine ⟨List.mem_cons_self a _, ?_, ?_⟩
      · exact List.mem_cons_of_mem a (List.mem_cons_self b _)
      · exact List.mem_cons_of_mem a (List.mem_cons_of_mem b (List.mem_cons_self c _))
    · have ih := triTriples_mem h
      exact ⟨List.mem_cons_of_mem a ih.1, List.mem_cons_of_mem a ih.2.1,
        List.mem_cons_of_mem a ih.2.2⟩

/-! Window index bounds and characterizations. -/

lemma diIdx_lt {p : Char × Char} {idx : Nat} (h : diIdx p = some idx) : idx < 400 := by
  rcases hA : AA_INDEX p.1 with _ | ia <;> rcases hB : AA_INDEX p.2 with _ | ib <;>
    simp [diIdx, hA, hB] at h
  have h1 := AA_INDEX_lt hA
  have h2 := AA_INDEX_lt hB
  omega

lemma triIdx_lt {t : Char × Char × Char} {idx : Nat} (h : triIdx t = some idx) :
    idx < 8000 := by
  rcases hA : AA_INDEX t.1 with _ | ia <;> rcases hB : AA_INDEX t.2.1 with _ | ib <;>
    rcases hC : AA_INDEX t.2.2 with _ | ic <;> simp [triIdx, hA, hB, hC] at h
  have h1 := AA_INDEX_lt hA
  have h2 := AA_INDEX_lt hB
  have h3 := AA_INDEX_lt hC
  omega

lemma diIdx_isSome {p : Char × Char} (h1 : p.1 ∈ AMINO_ACIDS) (h2 : p.2 ∈ AMINO_ACIDS) :
    (diIdx p).isSome := by
  rcases Option.isSome_iff_exists.mp (lookupIdx_isSome_of_mem h1) with ⟨ia, ha⟩
  rcases Option.isSome_iff_exists.mp (lookupIdx_isSome_of_mem h2) with ⟨ib, hb⟩
  simp [diIdx, AA_INDEX, ha, hb]

lemma triIdx_isSome {t : Char × Char × Char} (h1 : t.1 ∈ AMINO_ACIDS)
    (h2 : t.2.1 ∈ AMINO_ACIDS) (h3 : t.2.2 ∈ AMINO_ACIDS) : (triIdx t).isSome := by
  rcases Option.isSome_iff_exists.mp (lookupIdx_isSome_of_mem h1) with ⟨ia, ha⟩
  rcases Option.isSome_iff_exists.mp (lookupIdx_isSome_of_mem h2) with ⟨ib, hb⟩
  rcases Option.isSome_iff_exists.mp (lookupIdx_isSome_of_mem h3) with ⟨ic, hc⟩
  simp [triIdx, AA_INDEX, ha, hb, hc]

lemma diIdx_eq_iff {a b : Char} {i j : Nat} (hi : i < 20) (hj : j < 20) :
    diIdx (a, b) = some (i * 20 + j) ↔
      (a = AMINO_ACIDS.getD i ' ' ∧ b = AMINO_ACIDS.getD j ' ') := by
  constructor
  · intro h
    rcases hA : AA_INDEX a with _ | ia <;> rcases hB : AA_INDEX b with _ | ib <;>
      simp [diIdx, hA, hB] at h
    have h1 := AA_INDEX_lt hA
    have h2 := AA_INDEX_lt hB
    have hia : ia = i ∧ ib = j := by omega
    rcases hia with ⟨rfl, rfl⟩
    exact ⟨(AA_INDEX_getD hA).symm, (AA_INDEX_getD hB).symm⟩
  · rintro ⟨rfl, rfl⟩
    have hA := (AA_INDEX_eq_iff hi).mpr rfl
    have hB := (AA_INDEX_eq_iff hj).mpr rfl
    simp only [diIdx]
    rw [hA, hB]

lemma triIdx_eq_iff {a b c : Char} {i j k : Nat}
    (hi : i < 20) (hj : j < 20) (hk : k < 20) :
    triIdx (a, b, c) = some (i * 400 + j * 20 + k) ↔
      (a = AMINO_ACIDS.getD i ' ' ∧ b = AMINO_ACIDS.getD j ' ' ∧
        c = AMINO_ACIDS.getD k ' ') := by
  constructor
  · intro h
    rcases hA : AA_INDEX a with _ | ia <;> rcases hB : AA_INDEX b with _ | ib <;>
      rcases hC : AA_INDEX c with _ | ic <;> simp [triIdx, hA, hB, hC] at h
    have h1 := AA_INDEX_lt hA
    have h2 := AA_INDEX_lt hB
    have h3 := AA_INDEX_lt hC
    have hia : ia = i ∧ ib = j ∧ ic = k := by omega
    rcases hia with ⟨rfl, rfl, rfl⟩
    exact ⟨(AA_INDEX_getD hA).symm, (AA_INDEX_getD hB).symm, (AA_INDEX_getD hC).symm⟩
  · rintro ⟨rfl, rfl, rfl⟩
    have hA := (AA_INDEX_eq_iff hi).mpr rfl
    have hB := (AA_INDEX_eq_iff hj).mpr rfl
    have hC := (AA_INDEX_eq_iff hk).mpr rfl
    simp only [triIdx]
    rw [hA, hB, hC]

/-! Claim C1. The original claim fails on the code: windows containing a
character outside the alphabet are skipped, so the count total falls short of
`totalWindows` on noisy input (see the counterexample). The amended claim
restricts to sequences made of alphabet characters. -/

lemma sum_replicate_zero : ∀ n : Nat, (List.replicate n (0 : Nat)).sum = 0
  | 0 => rfl
  | n + 1 => by simp [List.replicate_succ, sum_replicate_zero n]

lemma getD_replicate_zero (n i : Nat) : (List.replicate n (0 : Nat)).getD i 0 = 0 := by
  rw [List.getD_eq_getElem?_getD, List.getElem?_replicate]
  split <;> rfl

/-- C1 (counterexample to the original claim): for the single-character
sequence "B" (B is outside the alphabet) the order-1 counts sum to 0 while
`totalWindows(1) = 1`. -/
theorem claim_C1_counterexample :
    (aaCounts ['B']).sum ≠ totalWindows 1 (List.length ['B']) := by decide

/-- C1 (amended): for every sequence whose characters all belong to the
20-symbol alphabet, the entries of the order-k count vector sum to
`totalWindows(k) = max(0, len(seq) - k + 1)` for each k ∈ {1,2,3}. -/
theorem claim_C1 (s : List Char) (h : ∀ c ∈ s, c ∈ AMINO_ACIDS) :
    (aaCounts s).sum = totalWindows 1 s.length ∧
    (diCounts s).sum = totalWindows 2 s.length ∧
    (triCounts s).sum = totalWindows 3 s.length := by
  refine ⟨?_, ?_, ?_⟩
  · rw [aaCounts, foldl_countStep_sum AA_INDEX s _
      (fun x _ j hj => by rw [List.length_replicate]; exact AA_INDEX_lt hj)]
    have hfil : List.filter (fun x => (AA_INDEX x).isSome) s = s :=
      List.filter_eq_self.mpr fun c hc => lookupIdx_isSome_of_mem (h c hc)
    have hrep := sum_replicate_zero 20
    rw [hfil, hrep]
    simp only [totalWindows]
    omega
  · rw [diCounts, foldl_countStep_sum diIdx (diPairs s) _
      (fun x _ j hj => by rw [List.length_replicate]; exact diIdx_lt hj)]
    have hfil : List.filter (fun x => (diIdx x).isSome) (diPairs s) = diPairs s :=
      List.filter_eq_self.mpr fun p hp =>
        diIdx_isSome (h _ (diPairs_mem hp).1) (h _ (diPairs_mem hp).2)
    have hrep := sum_replicate_zero 400
    rw [hfil, hrep, diPairs_length s]
    simp only [totalWindows]
    omega
  · rw [triCounts, foldl_countStep_sum triIdx (triTriples s) _
      (fun x _ j hj => by rw [List.length_replicate]; exact triIdx_lt hj)]
    have hfil : List.filter (fun x => (triIdx x).isSome) (triTriples s) = triTriples s :=
      List.filter_eq_self.mpr fun t ht =>
        triIdx_isSome (h _ (triTriples_mem ht).1) (h _ (triTriples_mem ht).2.1)
          (h _ (triTriples_mem ht).2.2)
    have hrep := sum_replicate_zero 8000
    rw [hfil, hrep, triTriples_length s]
    simp only [totalWindows]
    omega

/-- C1 witness at the all-valid sequence "ACD". -/
theorem claim_C1_witness :
    (aaCounts ['A', 'C', 'D']).sum = totalWindows 1 (List.length ['A', 'C', 'D']) ∧
    (diCounts ['A', 'C', 'D']).sum = totalWindows 2 (List.length ['A', 'C', 'D']) ∧
    (triCounts ['A', 'C', 'D']).sum = totalWindows 3 (List.length ['A', 'C', 'D']) :=
  claim_C1 ['A', 'C', 'D'] (by decide)

/-- C3: at every order the count at a slot equals the number of windows that
consist entirely of alphabet characters and match that slot's k-mer; a window
containing any out-of-alphabet character matches no slot and increments
nothing. -/
theorem claim_C3 (s : List Char) (i j k : Nat)
    (hi : i < 20) (hj : j < 20) (hk : k < 20) :
    (aaCounts s).getD i 0
        = (s.filter fun c => c = AMINO_ACIDS.getD i ' ').length ∧
    (diCounts s).getD (i * 20 + j) 0
        = ((diPairs s).filter fun p =>
            p.1 = AMINO_ACIDS.getD i ' ' ∧ p.2 = AMINO_ACIDS.getD j ' ').length ∧
    (triCounts s).getD (i * 400 + j * 20 + k) 0
        = ((triTriples s).filter fun t =>
            t.1 = AMINO_ACIDS.getD i ' ' ∧ t.2.1 = AMINO_ACIDS.getD j ' ' ∧
              t.2.2 = AMINO_ACIDS.getD k ' ').length := by
  refine ⟨?_, ?_, ?_⟩
  · rw [aaCounts, foldl_countStep_getD AA_INDEX i s _
      (by rw [List.length_replicate]; exact hi)]
    have hfil : List.filter (fun x => decide (AA_INDEX x = some i)) s
        = List.filter (fun c => decide (c = AMINO_ACIDS.getD i ' ')) s :=
      List.filter_congr fun c _ => by
        rw [decide_eq_decide]
        exact AA_INDEX_eq_iff hi
    rw [hfil, getD_replicate_zero]
    omega
  · rw [diCounts, foldl_countStep_getD diIdx (i * 20 + j) _ _
      (by rw [List.length_replicate]; omega)]
    have hfil : List.filter (fun x => decide (diIdx x = some (i * 20 + j))) (diPairs s)
        = List.filter (fun p => decide (p.1 = AMINO_ACIDS.getD i ' ' ∧
            p.2 = AMINO_ACIDS.getD j ' ')) (diPairs s) :=
      List.filter_congr fun p _ => by
        rw [decide_eq_decide]
        rcases p with ⟨a, b⟩
        exact diIdx_eq_iff hi hj
    rw [hfil, getD_replicate_zero]
    omega
  · rw [triCounts, foldl_countStep_getD triIdx (i * 400 + j * 20 + k) _ _
      (by rw [List.length_replicate]; omega)]
    have hfil : List.filter
          (fun x => decide (triIdx x = some (i * 400 + j * 20 + k))) (triTriples s)
        = List.filter (fun t => decide (t.1 = AMINO_ACIDS.getD i ' ' ∧
            t.2.1 = AMINO_ACIDS.getD j ' ' ∧
              t.2.2 = AMINO_ACIDS.getD k ' ')) (triTriples s) :=
      List.filter_congr fun t _ => by
        rw [decide_eq_decide]
        rcases t with ⟨a, b, c⟩
        exact triIdx_eq_iff hi hj hk
    rw [hfil, getD_replicate_zero]
    omega

/-- C3 witness at the sequence "AYA" (Y has index 19, A index 0) with slots
(i, j, k) = (0, 19, 0). -/
theorem claim_C3_witness :
    (aaCounts ['A', 'Y', 'A']).getD 0 0
        = (['A', 'Y', 'A'].filter fun c => c = AMINO_ACIDS.getD 0 ' ').length ∧
    (diCounts ['A', 'Y', 'A']).getD (0 * 20 + 19) 0
        = ((diPairs ['A', 'Y', 'A']).filter fun p =>
            p.1 = AMINO_ACIDS.getD 0 ' ' ∧ p.2 = AMINO_ACIDS.getD 19 ' ').length ∧
    (triCounts ['A', 'Y', 'A']).getD (0 * 400 + 19 * 20 + 0) 0
        = ((triTriples ['A', 'Y', 'A']).filter fun t =>
            t.1 = AMINO_ACIDS.getD 0 ' ' ∧ t.2.1 = AMINO_ACIDS.getD 19 ' ' ∧
              t.2.2 = AMINO_ACIDS.getD 0 ' ').length :=
  claim_C3 ['A', 'Y', 'A'] 0 19 0 (by decide) (by decide) (by decide)

/-! Claim C4: the frequency vectors divide by the raw window totals only
under the explicit positivity guard, and are identically 0 when the total is
0 (in particular whenever `len(seq) < k`). -/

lemma getD_map_comp (f : Nat → ℚ) (h0 : f 0 = 0) :
    ∀ (l : List Nat) (j : Nat), (l.map f).getD j 0 = f (l.getD j 0)
  | [], _ => by simp [h0]
  | c :: rest, 0 => by simp
  | c :: rest, j + 1 => by
    simp only [List.map_cons, List.getD_cons_succ]
    exact getD_map_comp f h0 rest j

lemma compOf_getD (counts : List Nat) (total : Nat) (j : Nat) :
    (compOf counts total).getD j 0
      = if 0 < total then ((counts.getD j 0 : ℚ) / total) else 0 := by
  unfold compOf
  rw [getD_map_comp _ (by split <;> simp) counts j]

/-- C4: for each order k ∈ {1,2,3}, if `totalWindows(k) > 0` every frequency
entry is the count divided by `totalWindows(k)`, and if `totalWindows(k) = 0`
(in particular when `len(seq) < k`) every frequency entry is exactly 0; the
division-by-zero guard `total > 0` is part of `compOf` itself, so no division
by a zero denominator is ever performed. -/
theorem claim_C4 (s : List Char) (j : Nat) :
    (0 < totalWindows 1 s.length →
      (computeFeaturesForSeq s).aaComp.getD j 0
        = ((aaCounts s).getD j 0 : ℚ) / totalWindows 1 s.length) ∧
    (totalWindows 1 s.length = 0 →
      (computeFeaturesForSeq s).aaComp.getD j 0 = 0) ∧
    (0 < totalWindows 2 s.length →
      (computeFeaturesForSeq s).diComp.getD j 0
        = ((diCounts s).getD j 0 : ℚ) / totalWindows 2 s.length) ∧
    (totalWindows 2 s.length = 0 →
      (computeFeaturesForSeq s).diComp.getD j 0 = 0) ∧
    (0 < totalWindows 3 s.length →
      (computeFeaturesForSeq s).triComp.getD j 0
        = ((triCounts s).getD j 0 : ℚ) / totalWindows 3 s.length) ∧
    (totalWindows 3 s.length = 0 →
      (computeFeaturesForSeq s).triComp.getD j 0 = 0) := by
  have h1 : totalWindows 1 s.length = s.length := by simp only [totalWindows]; omega
  have h2 : totalWindows 2 s.length = s.length - 1 := by simp only [totalWindows]; omega
  have h3 : totalWindows 3 s.length = s.length - 2 := by simp only [totalWindows]; omega
  simp only [computeFeaturesForSeq, compOf_getD, h1, h2, h3]
  exact ⟨fun h => by rw [if_pos h], fun h => by rw [if_neg (by omega)],
    fun h => by rw [if_pos h], fun h => by rw [if_neg (by omega)],
    fun h => by rw [if_pos h], fun h => by rw [if_neg (by omega)]⟩

/-- C4 witness: at "A" with `totalWindows(1) = 1` the order-1 entry is the
quotient; at the empty sequence `totalWindows(1) = 0` gives entry 0; at "A"
`totalWindows(2) = 0` gives order-2 entry 0. -/
theorem claim_C4_witness :
    (computeFeaturesForSeq ['A']).aaComp.getD 0 0
      = ((aaCounts ['A']).getD 0 0 : ℚ) / totalWindows 1 (List.length ['A']) ∧
    (computeFeaturesForSeq ([] : List Char)).aaComp.getD 0 0 = 0 ∧
    (computeFeaturesForSeq ['A']).diComp.getD 0 0 = 0 :=
  ⟨(claim_C4 ['A'] 0).1 (by decide), (claim_C4 [] 0).2.1 (by decide),
    (claim_C4 ['A'] 0).2.2.2.1 (by decide)⟩

/-! Claim C2: the enumerations vs. the closed-form index. -/

lemma flatMap_length_const (f : α → List β) (m : Nat) (hm : ∀ a, (f a).length = m) :
    ∀ l : List α, (l.flatMap f).length = l.length * m
  | [] => by simp
  | a :: l => by
    rw [List.flatMap_cons, List.length_append, hm a,
      flatMap_length_const f m hm l, List.length_cons]
    ring

lemma flatMap_getElem? (f : α → List β) (m : Nat) (hm : ∀ a, (f a).length = m) :
    ∀ (l : List α) (i j : Nat), i < l.length → j < m →
      (l.flatMap f)[i * m + j]? = l[i]?.bind fun a => (f a)[j]?
  | [], i, _, hi, _ => by simp at hi
  | a :: l, 0, j, hi, hj => by
    rw [List.flatMap_cons, Nat.zero_mul, Nat.zero_add,
      List.getElem?_append_left (by rw [hm a]; exact hj)]
    simp
  | a :: l, i + 1, j, hi, hj => by
    have hmul : (i + 1) * m = i * m + m := by ring
    have hge : (f a).length ≤ (i + 1) * m + j := by rw [hm a]; omega
    have harith : (i + 1) * m + j - (f a).length = i * m + j := by
      rw [hm a]
      omega
    rw [List.flatMap_cons, List.getElem?_append_right hge, harith,
      flatMap_getElem? f m hm l i j (by simpa using hi) hj]
    simp

lemma getD_eq_of_getElem? {l : List α} {i : Nat} {x d : α} (h : l[i]? = some x) :
    l.getD i d = x := by
  rw [List.getD_eq_getElem?_getD, h]
  rfl

lemma map_pair_length (a : Char) : (AMINO_ACIDS.map fun b => [a, b]).length = 20 := by
  rw [List.length_map]
  exact AMINO_ACIDS_length

lemma DIPEPTIDES_getElem? {i j : Nat} (hi : i < 20) (hj : j < 20) :
    DIPEPTIDES[i * 20 + j]? = some [AMINO_ACIDS.getD i ' ', AMINO_ACIDS.getD j ' '] := by
  rw [DIPEPTIDES, flatMap_getElem? _ 20 map_pair_length AMINO_ACIDS i j
    (AMINO_ACIDS_length ▸ hi) hj]
  have hgi : AMINO_ACIDS[i]? = some (AMINO_ACIDS.getD i ' ') := by
    rw [List.getD_eq_getElem?_getD, List.getElem?_eq_getElem (AMINO_ACIDS_length ▸ hi)]
    rfl
  have hgj : AMINO_ACIDS[j]? = some (AMINO_ACIDS.getD j ' ') := by
    rw [List.getD_eq_getElem?_getD, List.getElem?_eq_getElem (AMINO_ACIDS_length ▸ hj)]
    rfl
  rw [hgi, Option.some_bind, List.getElem?_map, hgj]
  rfl

lemma tri_inner_length (a : Char) :
    (AMINO_ACIDS.flatMap fun b => AMINO_ACIDS.map fun c => [a, b, c]).length = 400 := by
  rw [flatMap_length_const _ 20 (fun b => by rw [List.length_map]; exact AMINO_ACIDS_length),
    AMINO_ACIDS_length]

lemma TRIPEPTIDES_getElem? {i j k : Nat} (hi : i < 20) (hj : j < 20) (hk : k < 20) :
    TRIPEPTIDES[i * 400 + j * 20 + k]?
      = some [AMINO_ACIDS.getD i ' ', AMINO_ACIDS.getD j ' ', AMINO_ACIDS.getD k ' '] := by
  have hsplit : i * 400 + j * 20 + k = i * 400 + (j * 20 + k) := by omega
  rw [TRIPEPTIDES, hsplit, flatMap_getElem? _ 400 tri_inner_length AMINO_ACIDS i _
    (AMINO_ACIDS_length ▸ hi) (by omega)]
  have hgi : AMINO_ACIDS[i]? = some (AMINO_ACIDS.getD i ' ') := by
    rw [List.getD_eq_getElem?_getD, List.getElem?_eq_getElem (AMINO_ACIDS_length ▸ hi)]
    rfl
  rw [hgi, Option.some_bind,
    flatMap_getElem? _ 20 (fun b => by rw [List.length_map]; exact AMINO_ACIDS_length)
      AMINO_ACIDS j k (AMINO_ACIDS_length ▸ hj) hk]
  have hgj : AMINO_ACIDS[j]? = some (AMINO_ACIDS.getD j ' ') := by
    rw [List.getD_eq_getElem?_getD, List.getElem?_eq_getElem (AMINO_ACIDS_length ▸ hj)]
    rfl
  have hgk : AMINO_ACIDS[k]? = some (AMINO_ACIDS.getD k ' ') := by
    rw [List.getD_eq_getElem?_getD, List.getElem?_eq_getElem (AMINO_ACIDS_length ▸ hk)]
    rfl
  rw [hgj, Option.some_bind, List.getElem?_map, hgk]
  rfl

/-- C2: the enumerations are in lexicographic order induced by the alphabet
order and agree with the closed-form index of the counting pass: entry
`i*20 + j` of `DIPEPTIDES` is `AMINO_ACIDS[i] + AMINO_ACIDS[j]` and entry
`i*400 + j*20 + k` of `TRIPEPTIDES` is
`AMINO_ACIDS[i] + AMINO_ACIDS[j] + AMINO_ACIDS[k]`; the tables have 400 and
8000 entries. -/
theorem claim_C2 (i j k : Nat) (hi : i < 20) (hj : j < 20) (hk : k < 20) :
    DIPEPTIDES.length = 400 ∧ TRIPEPTIDES.length = 8000 ∧
    DIPEPTIDES.getD (i * 20 + j) []
      = [AMINO_ACIDS.getD i ' ', AMINO_ACIDS.getD j ' '] ∧
    TRIPEPTIDES.getD (i * 400 + j * 20 + k) []
      = [AMINO_ACIDS.getD i ' ', AMINO_ACIDS.getD j ' ', AMINO_ACIDS.getD k ' '] := by
  refine ⟨?_, ?_, ?_, ?_⟩
  · rw [DIPEPTIDES, flatMap_length_const _ 20 map_pair_length, AMINO_ACIDS_length]
  · rw [TRIPEPTIDES, flatMap_length_const _ 400 tri_inner_length, AMINO_ACIDS_length]
  · exact getD_eq_of_getElem? (DIPEPTIDES_getElem? hi hj)
  · exact getD_eq_of_getElem? (TRIPEPTIDES_getElem? hi hj hk)

/-- C2 witness at (i, j, k) = (1, 2, 3): "CD" and "CDE". -/
theorem claim_C2_witness :
    DIPEPTIDES.length = 400 ∧ TRIPEPTIDES.length = 8000 ∧
    DIPEPTIDES.getD (1 * 20 + 2) []
      = [AMINO_ACIDS.getD 1 ' ', AMINO_ACIDS.getD 2 ' '] ∧
    TRIPEPTIDES.getD (1 * 400 + 2 * 20 + 3) []
      = [AMINO_ACIDS.getD 1 ' ', AMINO_ACIDS.getD 2 ' ', AMINO_ACIDS.getD 3 ' '] :=
  claim_C2 1 2 3 (by decide) (by decide) (by decide)

/-! Claim C5. The original claim is refuted: the order-1 frequency of "A" in
the sequence "AB" is 1/2, not 1.0, because the code divides the order-1
counts by the full sequence length `n = 2`, not by the number of valid
windows. The rest of the scenario holds and is proved in the amended form. -/

/-- C5 (counterexample to the original claim): for "AB", the order-1
frequency of "A" is not 1.0. -/
theorem claim_C5_counterexample :
    (computeFeaturesForSeq ['A', 'B']).aaComp.getD 0 0 ≠ 1 := by
  have h1 : (aaCounts ['A', 'B']).getD 0 0 = 1 := by decide
  have h2 : (computeFeaturesForSeq ['A', 'B']).aaComp.getD 0 0
      = ((aaCounts ['A', 'B']).getD 0 0 : ℚ) / (2 : Nat) := by
    have h := compOf_getD (aaCounts ['A', 'B']) 2 0
    rw [if_pos (by norm_num)] at h
    exact h
  rw [h2, h1]
  norm_num

/-- C5 (amended): for "AB" (B outside the alphabet), the order-1 count of
"A" is 1 and its frequency is 1/2 (count over `totalWindows(1) = len = 2`),
all other order-1 counts are 0; the order-2 count vector is entirely 0 and
every order-2 frequency is 0 (zero numerator over the raw denominator
`totalWindows(2) = 1`). -/
theorem claim_C5 :
    aaCounts ['A', 'B'] = 1 :: List.replicate 19 0 ∧
    (computeFeaturesForSeq ['A', 'B']).aaComp = (1 / 2 : ℚ) :: List.replicate 19 0 ∧
    diCounts ['A', 'B'] = List.replicate 400 0 ∧
    (computeFeaturesForSeq ['A', 'B']).diComp = List.replicate 400 (0 : ℚ) ∧
    totalWindows 2 (List.length ['A', 'B']) = 1 := by
  have h1 : aaCounts ['A', 'B'] = 1 :: List.replicate 19 0 := by decide
  have h3 : diCounts ['A', 'B'] = List.replicate 400 0 := by decide
  refine ⟨h1, ?_, h3, ?_, by decide⟩
  · show compOf (aaCounts ['A', 'B']) (List.length ['A', 'B']) = _
    rw [h1, compOf, List.map_cons, List.map_replicate]
    norm_num
  · show compOf (diCounts ['A', 'B']) (List.length ['A', 'B'] - 1) = _
    rw [h3, compOf, List.map_replicate]
    norm_num

/-! Claim C6. The batch CSV builder `buildCsvFromRecordsChunked` accepts no
`progressEvery` or `chunkSize` parameter: the progress interval is hardcoded
to 50 (`i % 50 === 0 || i === records.length - 1`) and the yield interval to
200, so a run "with progressEvery = 1" is not expressible and over 5 records
the callback fires twice, not five times. -/

/-- Modelled from the loop of `buildCsvFromRecordsChunked` in `src/App.tsx`:
the (done, total) arguments of the `onProgress` invocations, in order, for a
batch of `total` records — the callback fires at 0-based record index `i`
iff `i % 50 === 0 || i === records.length - 1`, with `done = i + 1`. -/
def progressCalls (total : Nat) : List (Nat × Nat) :=
  (List.range total).filterMap fun i =>
    if i % 50 = 0 ∨ i = total - 1 then some (i + 1, total) else none

/-- C6 (counterexample to the original claim): over 5 records the progress
callback is not invoked 5 times. -/
theorem claim_C6_counterexample : (progressCalls 5).length ≠ 5 := by decide

/-- C6 (amended): over 5 records the callback is invoked exactly twice, with
strictly increasing done values (1,5) then (5,5); in general, for any
positive number of records, the final invocation is (total, total). -/
theorem claim_C6 :
    progressCalls 5 = [(1, 5), (5, 5)] ∧
    (progressCalls 5).length = 2 ∧
    (∀ total : Nat, 0 < total → (progressCalls total).getLast? = some (total, total)) := by
  refine ⟨by decide, by decide, ?_⟩
  intro total ht
  obtain ⟨t, rfl⟩ : ∃ t, total = t + 1 := ⟨total - 1, by omega⟩
  rw [progressCalls, List.range_succ, List.filterMap_append]
  have hlast : List.filterMap
      (fun i => if i % 50 = 0 ∨ i = t + 1 - 1 then some (i + 1, t + 1) else none) [t]
      = [(t + 1, t + 1)] := by
    simp
  rw [hlast]
  exact List.getLast?_concat _

/-- C6 witness: the general final-invocation part at a batch of 3 records. -/
theorem claim_C6_witness : (progressCalls 3).getLast? = some (3, 3) :=
  claim_C6.2.2 3 (by decide)

/-! Claim C10: shape and range invariants of `computeFeaturesForSeq`. -/

lemma aaCounts_le (s : List Char) : ∀ x ∈ aaCounts s, x ≤ s.length := by
  intro x hx
  obtain ⟨idx, hidx, rfl⟩ := List.mem_iff_getElem.mp hx
  rw [aaCounts, foldl_countStep_length] at hidx
  rw [List.length_replicate] at hidx
  have := foldl_countStep_getD AA_INDEX idx s (List.replicate 20 0)
    (by rw [List.length_replicate]; exact hidx)
  rw [← aaCounts] at this
  have hg : (aaCounts s)[idx] = (aaCounts s).getD idx 0 := by
    rw [List.getD_eq_getElem?_getD, List.getElem?_eq_getElem]
    rfl
  rw [hg, this, getD_replicate_zero]
  simpa using List.length_filter_le _ s

lemma diCounts_le (s : List Char) : ∀ x ∈ diCounts s, x ≤ s.length - 1 := by
  intro x hx
  obtain ⟨idx, hidx, rfl⟩ := List.mem_iff_getElem.mp hx
  rw [diCounts, foldl_countStep_length] at hidx
  rw [List.length_replicate] at hidx
  have := foldl_countStep_getD diIdx idx (diPairs s) (List.replicate 400 0)
    (by rw [List.length_replicate]; exact hidx)
  rw [← diCounts] at this
  have hg : (diCounts s)[idx] = (diCounts s).getD idx 0 := by
    rw [List.getD_eq_getElem?_getD, List.getElem?_eq_getElem]
    rfl
  rw [hg, this, getD_replicate_zero]
  have hle := List.length_filter_le (fun x => decide (diIdx x = some idx)) (diPairs s)
  rw [diPairs_length] at hle
  simpa using hle

lemma triCounts_le (s : List Char) : ∀ x ∈ triCounts s, x ≤ s.length - 2 := by
  intro x hx
  obtain ⟨idx, hidx, rfl⟩ := List.mem_iff_getElem.mp hx
  rw [triCounts, foldl_countStep_length] at hidx
  rw [List.length_replicate] at hidx
  have := foldl_countStep_getD triIdx idx (triTriples s) (List.replicate 8000 0)
    (by rw [List.length_replicate]; exact hidx)
  rw [← triCounts] at this
  have hg : (triCounts s)[idx] = (triCounts s).getD idx 0 := by
    rw [List.getD_eq_getElem?_getD, List.getElem?_eq_getElem]
    rfl
  rw [hg, this, getD_replicate_zero]
  have hle := List.length_filter_le (fun x => decide (triIdx x = some idx)) (triTriples s)
  rw [triTriples_length] at hle
  simpa using hle

lemma mem_compOf_bounds {counts : List Nat} {total : Nat} {x : ℚ}
    (hc : ∀ c ∈ counts, c ≤ total) (hx : x ∈ compOf counts total) :
    0 ≤ x ∧ x ≤ 1 := by
  obtain ⟨c, hcin, rfl⟩ := List.mem_map.mp hx
  by_cases ht : 0 < total
  · rw [if_pos ht]
    constructor
    · positivity
    · rw [div_le_one (by exact_mod_cast ht)]
      exact_mod_cast hc c hcin
  · rw [if_neg ht]
    norm_num

/-- C10: for every input string (including strings with out-of-alphabet
characters) the result has aaComp of length 20, diComp of length 400,
triComp of length 8000, a length field equal to the input length, and every
entry of every composition vector lies in [0, 1]. -/
theorem claim_C10 (s : List Char) :
    (computeFeaturesForSeq s).aaComp.length = 20 ∧
    (computeFeaturesForSeq s).diComp.length = 400 ∧
    (computeFeaturesForSeq s).triComp.length = 8000 ∧
    (computeFeaturesForSeq s).length = s.length ∧
    (∀ x ∈ (computeFeaturesForSeq s).aaComp, 0 ≤ x ∧ x ≤ 1) ∧
    (∀ x ∈ (computeFeaturesForSeq s).diComp, 0 ≤ x ∧ x ≤ 1) ∧
    (∀ x ∈ (computeFeaturesForSeq s).triComp, 0 ≤ x ∧ x ≤ 1) := by
  refine ⟨?_, ?_, ?_, rfl, ?_, ?_, ?_⟩
  · show (compOf (aaCounts s) s.length).length = 20
    rw [compOf, List.length_map, aaCounts, foldl_countStep_length, List.length_replicate]
  · show (compOf (diCounts s) (s.length - 1)).length = 400
    rw [compOf, List.length_map, diCounts, foldl_countStep_length, List.length_replicate]
  · show (compOf (triCounts s) (s.length - 2)).length = 8000
    rw [compOf, List.length_map, triCounts, foldl_countStep_length, List.length_replicate]
  · exact fun x hx => mem_compOf_bounds (aaCounts_le s) hx
  · exact fun x hx => mem_compOf_bounds (diCounts_le s) hx
  · exact fun x hx => mem_compOf_bounds (triCounts_le s) hx

/-- C10 witness at the sequence "A". -/
theorem claim_C10_witness :
    (computeFeaturesForSeq ['A']).aaComp.length = 20 ∧
    (computeFeaturesForSeq ['A']).length = List.length ['A'] ∧
    (0 ≤ (computeFeaturesForSeq ['A']).aaComp.getD 0 0 ∧
      (computeFeaturesForSeq ['A']).aaComp.getD 0 0 ≤ 1) := by
  refine ⟨(claim_C10 ['A']).1, (claim_C10 ['A']).2.2.2.1, ?_⟩
  have h0 : 0 < (computeFeaturesForSeq ['A']).aaComp.length := by
    rw [(claim_C10 ['A']).1]
    norm_num
  have hmem : (computeFeaturesForSeq ['A']).aaComp.getD 0 0
      ∈ (computeFeaturesForSeq ['A']).aaComp := by
    rw [List.getD_eq_getElem?_getD, List.getElem?_eq_getElem h0, Option.getD_some]
    exact List.getElem_mem h0
  exact (claim_C10 ['A']).2.2.2.2.1 _ hmem

/-! Claims C7: CSV serialization. The header and row cell lists are modelled
before the comma-join; `fmt` abstracts the numeric rendering
`(x) => (typeof floatDigits === "number" ? x.toFixed(floatDigits) : String(x))`,
whose output shape the column invariant does not depend on. -/

/-- Source: `const metaCols = ["ID", "Description", "Header", "GeneName"]` (identical
in `singleSeqToCsv` and `buildCsvFromRecordsChunked`). -/
def metaCols : List (List Char) :=
  ["ID".toList, "Description".toList, "Header".toList, "GeneName".toList]

/-- Source: `const header = [...metaCols, ...AMINO_ACIDS, ...DIPEPTIDES, ...TRIPEPTIDES]`
in `singleSeqToCsv`. -/
def csvHeaderCells : List (List Char) :=
  metaCols ++ (AMINO_ACIDS.map fun a => [a]) ++ DIPEPTIDES ++ TRIPEPTIDES

/-- The header row of `buildCsvFromRecordsChunked`:
`[...metaCols, ...AA_ORDER, ...DIPEPTIDES, ...TRIPEPTIDES]` (same columns,
rebuilt in `App.tsx` from the same imported tables). -/
def batchHeaderCells : List (List Char) :=
  metaCols ++ (AMINO_ACIDS.map fun a => [a]) ++ DIPEPTIDES ++ TRIPEPTIDES

/-- Source: `const row = [...metaRow, ...aaComp.map(fmt), ...diComp.map(fmt),
...triComp.map(fmt)]` in `singleSeqToCsv`, with
`metaRow = [m.id ?? "", m.description ?? "", m.header ?? "", geneName ?? ""]`. -/
def csvRowCells (fmt : ℚ → List Char) (s id desc hdr gene : List Char) :
    List (List Char) :=
  [id, desc, hdr, gene]
    ++ (computeFeaturesForSeq s).aaComp.map fmt
    ++ (computeFeaturesForSeq s).diComp.map fmt
    ++ (computeFeaturesForSeq s).triComp.map fmt

/-- Source: `/[",\n]/.test(s)` of the `esc` helper. -/
def needsQuote (s : List Char) : Bool := s.any fun c => c = '"' ∨ c = ',' ∨ c = '\n'

/-- Source: `esc`: wrap in double quotes, doubling internal double quotes, iff the
field contains a comma, double quote or newline. -/
def escField (s : List Char) : List Char :=
  if needsQuote s then
    '"' :: (s.flatMap fun c => if c = '"' then ['"', '"'] else [c]) ++ ['"']
  else s

/-- Source: `cells.map(esc).join(",")`. -/
def joinComma (cells : List (List Char)) : List Char :=
  List.intercalate [','] (cells.map escField)

/-- Source: `singleSeqToCsv`: escaped, comma-joined header line, a newline, and the
escaped, comma-joined data row. -/
def singleSeqToCsv (fmt : ℚ → List Char) (s id desc hdr gene : List Char) :
    List Char :=
  joinComma csvHeaderCells ++ '\n' :: joinComma (csvRowCells fmt s id desc hdr gene)

/-! Helper lemmas for positional access into the cell lists. -/

lemma getD_append_right_of_length {l1 l2 : List α} {d : α} {m n : Nat}
    (h : l1.length = m) : (l1 ++ l2).getD (m + n) d = l2.getD n d := by
  subst h
  have harith : l1.length + n - l1.length = n := by omega
  rw [List.getD_eq_getElem?_getD, List.getElem?_append_right (by omega), harith,
    ← List.getD_eq_getElem?_getD]

lemma getD_append_left_of_lt {l1 l2 : List α} {d : α} {n : Nat}
    (h : n < l1.length) : (l1 ++ l2).getD n d = l1.getD n d := by
  rw [List.getD_eq_getElem?_getD, List.getElem?_append_left h,
    ← List.getD_eq_getElem?_getD]

lemma getD_map_of_lt (f : α → β) (l : List α) (n : Nat) (h : n < l.length)
    (d : α) (e : β) : (l.map f).getD n e = f (l.getD n d) := by
  rw [List.getD_eq_getElem?_getD, List.getElem?_map, List.getElem?_eq_getElem h,
    List.getD_eq_getElem?_getD, List.getElem?_eq_getElem h]
  rfl

lemma DIPEPTIDES_length : DIPEPTIDES.length = 400 := by
  rw [DIPEPTIDES, flatMap_length_const _ 20 map_pair_length, AMINO_ACIDS_length]

lemma TRIPEPTIDES_length : TRIPEPTIDES.length = 8000 := by
  rw [TRIPEPTIDES, flatMap_length_const _ 400 tri_inner_length, AMINO_ACIDS_length]

lemma aaComp_length (s : List Char) : (computeFeaturesForSeq s).aaComp.length = 20 := by
  show (compOf (aaCounts s) s.length).length = 20
  rw [compOf, List.length_map, aaCounts, foldl_countStep_length, List.length_replicate]

lemma diComp_length (s : List Char) : (computeFeaturesForSeq s).diComp.length = 400 := by
  show (compOf (diCounts s) (s.length - 1)).length = 400
  rw [compOf, List.length_map, diCounts, foldl_countStep_length, List.length_replicate]

lemma triComp_length (s : List Char) :
    (computeFeaturesForSeq s).triComp.length = 8000 := by
  show (compOf (triCounts s) (s.length - 2)).length = 8000
  rw [compOf, List.length_map, triCounts, foldl_countStep_length, List.length_replicate]

lemma metaCols_length : metaCols.length = 4 := rfl

/-- C7: for every serialized table the header cell list and each data row
cell list have the same number of fields (8424 = 4 + 20 + 400 + 8000); the
first four fields are the metadata columns/values, field `4 + i` is the
order-1 label `AMINO_ACIDS[i]` over the order-1 frequency, field `24 + j`
the order-2 label `DIPEPTIDES[j]` over the order-2 frequency, field
`424 + k` the order-3 label `TRIPEPTIDES[k]` over the order-3 frequency;
and the batch header of `buildCsvFromRecordsChunked` is the same column
list as the `singleSeqToCsv` header. -/
theorem claim_C7 (fmt : ℚ → List Char) (s id desc hdr gene : List Char)
    (i j k : Nat) (hi : i < 20) (hj : j < 400) (hk : k < 8000) :
    batchHeaderCells = csvHeaderCells ∧
    csvHeaderCells.length = 8424 ∧
    (csvRowCells fmt s id desc hdr gene).length = 8424 ∧
    csvHeaderCells.take 4 = metaCols ∧
    (csvRowCells fmt s id desc hdr gene).take 4 = [id, desc, hdr, gene] ∧
    (csvHeaderCells.getD (4 + i) [] = [AMINO_ACIDS.getD i ' '] ∧
      (csvRowCells fmt s id desc hdr gene).getD (4 + i) []
        = fmt ((computeFeaturesForSeq s).aaComp.getD i 0)) ∧
    (csvHeaderCells.getD (24 + j) [] = DIPEPTIDES.getD j [] ∧
      (csvRowCells fmt s id desc hdr gene).getD (24 + j) []
        = fmt ((computeFeaturesForSeq s).diComp.getD j 0)) ∧
    (csvHeaderCells.getD (424 + k) [] = TRIPEPTIDES.getD k [] ∧
      (csvRowCells fmt s id desc hdr gene).getD (424 + k) []
        = fmt ((computeFeaturesForSeq s).triComp.getD k 0)) := by
  have hAAmap : (AMINO_ACIDS.map fun a => [a]).length = 20 := by
    rw [List.length_map, AMINO_ACIDS_length]
  have haa := aaComp_length s
  have hdi := diComp_length s
  have htri := triComp_length s
  have haam : ((computeFeaturesForSeq s).aaComp.map fmt).length = 20 := by
    rw [List.length_map, haa]
  have hdim : ((computeFeaturesForSeq s).diComp.map fmt).length = 400 := by
    rw [List.length_map, hdi]
  have htrim : ((computeFeaturesForSeq s).triComp.map fmt).length = 8000 := by
    rw [List.length_map, htri]
  refine ⟨rfl, ?_, ?_, ?_, ?_, ⟨?_, ?_⟩, ⟨?_, ?_⟩, ⟨?_, ?_⟩⟩
  · rw [csvHeaderCells]
    simp only [List.length_append]
    rw [metaCols_length, hAAmap, DIPEPTIDES_length, TRIPEPTIDES_length]
  · rw [csvRowCells]
    simp only [List.length_append]
    rw [haam, hdim, htrim]
    rfl
  · rw [csvHeaderCells, List.append_assoc, List.append_assoc,
      List.take_left' metaCols_length]
  · rw [csvRowCells, List.append_assoc, List.append_assoc,
      List.take_left' (by rfl)]
  · rw [csvHeaderCells, List.append_assoc, List.append_assoc,
      getD_append_right_of_length metaCols_length,
      getD_append_left_of_lt (by rw [hAAmap]; exact hi),
      getD_map_of_lt _ _ _ (AMINO_ACIDS_length ▸ hi) ' ']
  · have h4 : ([id, desc, hdr, gene] : List (List Char)).length = 4 := rfl
    rw [csvRowCells, List.append_assoc, List.append_assoc,
      getD_append_right_of_length h4,
      getD_append_left_of_lt (by rw [haam]; exact hi),
      getD_map_of_lt _ _ _ (haa ▸ hi) 0]
  · have h24 : (24 : Nat) + j = (metaCols ++ (AMINO_ACIDS.map fun a => [a])).length + j := by
      rw [List.length_append, metaCols_length, hAAmap]
    rw [csvHeaderCells, List.append_assoc (metaCols ++ (AMINO_ACIDS.map fun a => [a])),
      h24, getD_append_right_of_length rfl,
      getD_append_left_of_lt (by rw [DIPEPTIDES_length]; exact hj)]
  · have h24 : (24 : Nat) + j
        = ([id, desc, hdr, gene] ++ (computeFeaturesForSeq s).aaComp.map fmt).length + j := by
      rw [List.length_append, haam]
      rfl
    rw [csvRowCells, List.append_assoc ([id, desc, hdr, gene] ++ _),
      h24, getD_append_right_of_length rfl,
      getD_append_left_of_lt (by rw [hdim]; exact hj),
      getD_map_of_lt _ _ _ (hdi ▸ hj) 0]
  · have h424 : (424 : Nat) + k
        = ((metaCols ++ (AMINO_ACIDS.map fun a => [a])) ++ DIPEPTIDES).length + k := by
      rw [List.length_append, List.length_append, metaCols_length, hAAmap,
        DIPEPTIDES_length]
    rw [csvHeaderCells, h424, getD_append_right_of_length rfl]
  · have h424 : (424 : Nat) + k
        = (([id, desc, hdr, gene] ++ (computeFeaturesForSeq s).aaComp.map fmt)
            ++ (computeFeaturesForSeq s).diComp.map fmt).length + k := by
      rw [List.length_append, List.length_append, haam, hdim]
      rfl
    rw [csvRowCells, h424, getD_append_right_of_length rfl,
      getD_map_of_lt _ _ _ (htri ▸ hk) 0]

/-- C7 witness at a constant formatter, sequence "A", metadata
("i1", "d1", "h1", "g1") and feature positions (0, 0, 0). -/
theorem claim_C7_witness :
    batchHeaderCells = csvHeaderCells ∧
    csvHeaderCells.length = 8424 ∧
    (csvRowCells (fun _ => ['0']) ['A'] "i1".toList "d1".toList "h1".toList
        "g1".toList).length = 8424 ∧
    csvHeaderCells.take 4 = metaCols ∧
    (csvRowCells (fun _ => ['0']) ['A'] "i1".toList "d1".toList "h1".toList
        "g1".toList).take 4 = ["i1".toList, "d1".toList, "h1".toList, "g1".toList] ∧
    (csvHeaderCells.getD (4 + 0) [] = [AMINO_ACIDS.getD 0 ' '] ∧
      (csvRowCells (fun _ => ['0']) ['A'] "i1".toList "d1".toList "h1".toList
          "g1".toList).getD (4 + 0) []
        = (fun (_ : ℚ) => ['0']) ((computeFeaturesForSeq ['A']).aaComp.getD 0 0)) ∧
    (csvHeaderCells.getD (24 + 0) [] = DIPEPTIDES.getD 0 [] ∧
      (csvRowCells (fun _ => ['0']) ['A'] "i1".toList "d1".toList "h1".toList
          "g1".toList).getD (24 + 0) []
        = (fun (_ : ℚ) => ['0']) ((computeFeaturesForSeq ['A']).diComp.getD 0 0)) ∧
    (csvHeaderCells.getD (424 + 0) [] = TRIPEPTIDES.getD 0 [] ∧
      (csvRowCells (fun _ => ['0']) ['A'] "i1".toList "d1".toList "h1".toList
          "g1".toList).getD (424 + 0) []
        = (fun (_ : ℚ) => ['0']) ((computeFeaturesForSeq ['A']).triComp.getD 0 0)) :=
  claim_C7 (fun _ => ['0']) ['A'] "i1".toList "d1".toList "h1".toList "g1".toList
    0 0 0 (by decide) (by decide) (by decide)

/-! Claim C8: the FASTA record parser of `src/App.tsx`. -/

/-- JS whitespace classification restricted to the ASCII characters that can
occur here (space, tab, newline, carriage return, vertical tab, form feed);
both `String.prototype.trim` and the `/\s+/` split use it. -/
def isWS (c : Char) : Bool :=
  c = ' ' ∨ c = '\t' ∨ c = '\n' ∨ c = '\r' ∨ c = '\x0b' ∨ c = '\x0c'

/-- Source: `line.trim()`. -/
def trimChars (l : List Char) : List Char :=
  ((l.dropWhile isWS).reverse.dropWhile isWS).reverse

/-- Source: `text.split(/\r?\n/)`: a `\r\n` pair or a lone `\n` separates lines; a
lone `\r` is an ordinary character. -/
def splitLinesGo : List Char → List Char → List (List Char)
  | [], acc => [acc.reverse]
  | '\r' :: '\n' :: rest, acc => acc.reverse :: splitLinesGo rest []
  | '\n' :: rest, acc => acc.reverse :: splitLinesGo rest []
  | c :: rest, acc => splitLinesGo rest (c :: acc)

def splitLines (text : List Char) : List (List Char) := splitLinesGo text []

/-- Source: `full.split(/\s+/)`: split on maximal whitespace runs; a leading run
produces a leading empty token and a trailing run a trailing empty token,
exactly as the JS regex split does. `inSep` records whether the previous
character was part of a separator run already consumed. -/
def splitWSGo : List Char → List Char → Bool → List (List Char)
  | [], acc, _ => [acc.reverse]
  | c :: rest, acc, inSep =>
    if isWS c then
      if inSep then splitWSGo rest acc true
      else acc.reverse :: splitWSGo rest [] true
    else splitWSGo rest (c :: acc) false

def splitWS (l : List Char) : List (List Char) := splitWSGo l [] false

/-- The `FastaRecord` of `App.tsx`:
`{ header: string; id?: string; description?: string; sequence: string }`. -/
structure FastaRecord where
  header : List Char
  id : List Char
  description : List Char
  sequence : List Char
  deriving Repr, DecidableEq

/-- Source: `descParts.join(" ")`. -/
def joinSpace (parts : List (List Char)) : List Char := List.intercalate [' '] parts

/-- The record-pushing step shared by the loop body and the final flush:
`const [idToken, ...descParts] = full.split(/\s+/);
 out.push({ header: full, id: idToken || "", description: descParts.join(" ")
 || "", sequence: seq })`. -/
def mkRecord (full seq : List Char) : FastaRecord :=
  { header := full
    id := (splitWS full).headD []
    description := joinSpace (splitWS full).tail
    sequence := seq }

/-- Source: `line.startsWith(">")`. -/
def startsGT : List Char → Bool
  | '>' :: _ => true
  | _ => false

/-- The accumulator loop of `parseFasta`: `header` and `seq` are the mutable
loop variables; a record is pushed when a new marker line arrives and the
current `header` string is truthy (non-empty), and once more at the end under
the same `if (header)` guard. -/
def parseFastaGo : List (List Char) → List Char → List Char → List FastaRecord
  | [], header, seq => if header.isEmpty then [] else [mkRecord header seq]
  | line :: rest, header, seq =>
    if startsGT line then
      (if header.isEmpty then [] else [mkRecord header seq])
        ++ parseFastaGo rest (trimChars (line.drop 1)) []
    else
      parseFastaGo rest header (seq ++ trimChars line)

/-- Source: `parseFasta(text)`. -/
def parseFasta (text : List Char) : List FastaRecord :=
  parseFastaGo (splitLines text) [] []

/-- A marker line that actually produces a record: it starts with `>` and its
trimmed remainder is non-empty (a bare `">"` line fails the `if (header)`
truthiness guard and is dropped). -/
def goodMarker (line : List Char) : Bool :=
  startsGT line && !(trimChars (line.drop 1)).isEmpty

/-- C8 (counterexample to the original claim): the one-line input ">" holds
one header-marker line but `parseFasta` returns no record for it. -/
theorem claim_C8_counterexample :
    parseFasta ['>'] = [] ∧ ((splitLines ['>']).filter startsGT).length = 1 := by
  decide

lemma parseFastaGo_length :
    ∀ (lines : List (List Char)) (header seq : List Char),
      (parseFastaGo lines header seq).length
        = (lines.filter goodMarker).length + (if header.isEmpty then 0 else 1)
  | [], header, seq => by
    simp only [parseFastaGo, List.filter_nil, List.length_nil]
    split <;> simp
  | line :: rest, header, seq => by
    simp only [parseFastaGo]
    by_cases hgt : startsGT line
    · rw [if_pos hgt, List.length_append,
        parseFastaGo_length rest (trimChars (line.drop 1)) [], List.filter_cons]
      have hflush : (if header.isEmpty then ([] : List FastaRecord)
          else [mkRecord header seq]).length = if header.isEmpty then 0 else 1 := by
        split <;> rfl
      rw [hflush]
      by_cases hemp : (trimChars (line.drop 1)).isEmpty
      · have hemp' : trimChars line.tail = [] := by
          rw [← List.drop_one]
          exact List.isEmpty_iff.mp hemp
        have hgm : goodMarker line = false := by simp [goodMarker, hgt, hemp']
        rw [hgm, if_pos hemp]
        simp only [Bool.false_eq_true, if_false]
        omega
      · have hemp' : ¬ trimChars line.tail = [] := by
          rw [← List.drop_one]
          exact fun hh => hemp (List.isEmpty_iff.mpr hh)
        have hgm : goodMarker line = true := by simp [goodMarker, hgt, hemp']
        rw [hgm, if_neg hemp, if_pos rfl, List.length_cons]
        omega
    · rw [if_neg hgt, parseFastaGo_length rest header (seq ++ trimChars line),
        List.filter_cons]
      have hgm : goodMarker line = false := by simp [goodMarker, hgt]
      rw [hgm]
      simp only [Bool.false_eq_true, if_false]

/-- C8 (amended): the number of records equals the number of header-marker
lines whose trimmed content after the marker is non-empty — a bare ">" line
produces no record; a header with no following sequence lines still yields a
record with an empty sequence; input with no header line yields an empty
record list. -/
theorem claim_C8 (text : List Char) :
    (parseFasta text).length = ((splitLines text).filter goodMarker).length ∧
    parseFasta ['>', 'h', 'd']
      = [{ header := ['h', 'd'], id := ['h', 'd'], description := [],
           sequence := [] }] ∧
    parseFasta ['a', 'b', 'c', '\n', 'd'] = [] := by
  refine ⟨?_, by decide, by decide⟩
  rw [parseFasta, parseFastaGo_length]
  simp

/-! Claim C9: `validateSequence` of `src/App.tsx`. -/

/-- The three possible outcomes of `validateSequence`: ok, the
"Sequence is empty." rejection, and the
"Invalid character X at position p" rejection carrying the offending
character and its 1-based position. -/
inductive ValidationResult where
  | ok : ValidationResult
  | emptyErr : ValidationResult
  | invalidChar (c : Char) (position : Nat) : ValidationResult
  deriving Repr, DecidableEq

/-- Source: `VALID_CHARS = new Set(AA_ORDER)` membership test. -/
def VALID_CHARS (c : Char) : Bool := decide (c ∈ AMINO_ACIDS)

/-- The scanning loop of `validateSequence`: at 0-based index `i`, an invalid
character is reported at 1-based position `i + 1`. -/
def validateGo : List Char → Nat → ValidationResult
  | [], _ => .ok
  | c :: rest, i =>
    if VALID_CHARS c then validateGo rest (i + 1) else .invalidChar c (i + 1)

/-- Source: `validateSequence(seq)`: empty input is rejected first, then the scan. -/
def validateSequence (s : List Char) : ValidationResult :=
  if s.isEmpty then .emptyErr else validateGo s 0

lemma validateGo_ok :
    ∀ (s : List Char) (i : Nat), (∀ c ∈ s, c ∈ AMINO_ACIDS) → validateGo s i = .ok
  | [], _, _ => rfl
  | c :: rest, i, h => by
    have hc : VALID_CHARS c = true := by
      simp [VALID_CHARS, h c (List.mem_cons_self c rest)]
    simp only [validateGo, hc, if_true]
    exact validateGo_ok rest (i + 1) fun d hd => h d (List.mem_cons_of_mem c hd)

lemma validateGo_invalid :
    ∀ (s : List Char) (base i : Nat), i < s.length →
      s.getD i ' ' ∉ AMINO_ACIDS → (∀ j, j < i → s.getD j ' ' ∈ AMINO_ACIDS) →
      validateGo s base = .invalidChar (s.getD i ' ') (base + i + 1)
  | [], _, i, hi, _, _ => by simp at hi
  | c :: rest, base, 0, _, hbad, _ => by
    simp only [List.getD_cons_zero] at hbad ⊢
    have hc : VALID_CHARS c = false := by simp [VALID_CHARS, hbad]
    simp only [validateGo, hc, Bool.false_eq_true, if_false]
  | c :: rest, base, i + 1, hi, hbad, hgood => by
    have hc : VALID_CHARS c = true := by
      have h0 := hgood 0 (by omega)
      simp only [List.getD_cons_zero] at h0
      simp [VALID_CHARS, h0]
    simp only [validateGo, hc, if_true, List.getD_cons_succ]
    have hrec := validateGo_invalid rest (base + 1) i (by simpa using hi)
      (by simpa using hbad)
      (fun j hj => by
        have := hgood (j + 1) (by omega)
        simpa using this)
    rw [hrec]
    have harith : base + 1 + i + 1 = base + (i + 1) + 1 := by omega
    rw [harith]

/-- C9: `validateSequence` rejects the empty sequence; for a non-empty
sequence it returns Ok iff all characters are in the alphabet, and otherwise
reports the leftmost out-of-alphabet character with its 1-based position. -/
theorem claim_C9 (s : List Char) :
    (s = [] → validateSequence s = .emptyErr) ∧
    (s ≠ [] → (∀ c ∈ s, c ∈ AMINO_ACIDS) → validateSequence s = .ok) ∧
    (∀ i, i < s.length → s.getD i ' ' ∉ AMINO_ACIDS →
      (∀ j, j < i → s.getD j ' ' ∈ AMINO_ACIDS) →
      validateSequence s = .invalidChar (s.getD i ' ') (i + 1)) := by
  refine ⟨fun h => by rw [h]; rfl, fun hne hall => ?_, fun i hi hbad hgood => ?_⟩
  · rw [validateSequence, if_neg (by simpa [List.isEmpty_iff] using hne)]
    exact validateGo_ok s 0 hall
  · have hne : ¬ (s.isEmpty = true) := by
      rw [List.isEmpty_iff]
      intro hemp
      subst hemp
      simp at hi
    rw [validateSequence, if_neg hne]
    have := validateGo_invalid s 0 i hi hbad hgood
    simpa using this

/-- C9 witness: the empty sequence, the all-valid sequence "AC", and "ABC"
whose leftmost invalid character is B at 1-based position 2. -/
theorem claim_C9_witness :
    validateSequence [] = .emptyErr ∧
    validateSequence ['A', 'C'] = .ok ∧
    validateSequence ['A', 'B', 'C'] = .invalidChar 'B' 2 := by
  refine ⟨(claim_C9 []).1 rfl, (claim_C9 ['A', 'C']).2.1 (by decide) (by decide), ?_⟩
  exact (claim_C9 ['A', 'B', 'C']).2.2 1 (by decide) (by decide) (by decide)

end ProteinSeqRN
